import Mathlib

/-!
# Verification of the status controller's reconcile routine (operatorpkg)

Shallow embedding of `status/controller.go` (`Controller.reconcile` and its
metric fan-out helpers).  The per-identity slots of the two `sync.Map` caches
(`observedConditions`, `terminatingObjects`) are modelled explicitly as the
controller state for the reconciled request; every `Load`/`Store` in the
routine uses the request as key, so one invocation touches only that slot.
Timestamps are modelled as integers (seconds); `time.Since(t)` becomes
`now - t` and `a.Sub(b).Seconds()` becomes `a - b`.  Go label maps are
unordered; label sets are embedded as association lists in one canonical
order (group, namespace, name, type, status, reason, then the kind label
appended by the fan-out helpers).  Every externally observable action of the
routine (metric writes, event emission, cache stores) is recorded in an
effect trace in program order.
-/

/-- One status fact on an object, from the repository's condition data model
(`Type`, `Status`, `Reason`, `Message`, `LastTransitionTime`). -/
structure Condition where
  type : String
  status : String
  reason : String
  message : String
  lastTransitionTime : Int
  deriving DecidableEq, Repr

/-- Modelled from the spec: `Condition.GetStatus` of the condition library
(not under `src/`): the status of a possibly-absent condition, "treated as
Unknown if absent". -/
def GetStatus : Option Condition → String
  | none => "Unknown"
  | some c => c.status

/-- Modelled from the spec: `ConditionSet.Get` of the condition library (not
under `src/`): "exact lookup, no derivation" of the condition with the given
type; a set holds at most one condition per type. -/
def ConditionSet.Get (s : List Condition) (t : String) : Option Condition :=
  s.find? (fun c => c.type == t)

/-- The object capability surface used by `reconcile`: its condition list
(`StatusConditions().List()` / `GetConditions()`) and its deletion
timestamp. -/
structure Object where
  conditions : List Condition
  deletionTimestamp : Option Int
  deriving DecidableEq, Repr

/-- The per-request slots of the controller's two caches:
`observedConditions` (last stored `ConditionSet` for this request, `none` if
never stored) and `terminatingObjects` (recorded deletion timestamp). -/
structure ControllerState where
  observedConditions : Option (List Condition)
  terminatingObjects : Option Int
  deriving DecidableEq, Repr

/-- Outcome of `kubeClient.Get` for the request: the object, a not-found
error, or any other error. -/
inductive FetchResult where
  | found (o : Object)
  | notFound
  | fetchError
  deriving DecidableEq, Repr

/- Metric label keys (`MetricLabelGroup`, … in the metrics package). Their
concrete strings are irrelevant to the routine; distinct names model the
distinct keys. -/

def MetricLabelGroup : String := "group"
def MetricLabelNamespace : String := "namespace"
def MetricLabelName : String := "name"
def MetricLabelConditionType : String := "type"
def MetricLabelConditionStatus : String := "status"
def MetricLabelConditionReason : String := "reason"
def MetricLabelKind : String := "kind"

/-- A label set, as an association list in canonical order. -/
abbrev Labels := List (String × String)

/-- The six logical metric series driven by the routine. -/
inductive MetricId where
  | conditionCount
  | conditionCurrentStatusSeconds
  | conditionTransitionsTotal
  | conditionDuration
  | terminationCurrentTimeSeconds
  | terminationDuration
  deriving DecidableEq, Repr

/-- One externally observable action of a reconcile invocation, in program
order.  `dep = false` is the write to the per-kind-named family (the
controller's own metric field, first argument of the fan-out helpers);
`dep = true` is the write to the kind-disambiguated package-level family
(second argument, which receives the extra kind label). -/
inductive Effect where
  | gaugeSet (m : MetricId) (dep : Bool) (value : Int) (labels : Labels)
  | gaugeDelete (m : MetricId) (dep : Bool) (labels : Labels)
  | gaugeDeletePartialMatch (m : MetricId) (dep : Bool) (labels : Labels)
  | counterInc (m : MetricId) (dep : Bool) (labels : Labels)
  | histObserve (m : MetricId) (dep : Bool) (value : Int) (labels : Labels)
  | eventEmit (etype : String) (reason : String) (message : String)
  | storeObserved (cs : List Condition)
  | storeTerminating (ts : Int)
  deriving DecidableEq, Repr

/-- Go `Controller.setGaugeMetric`: write to the per-kind-named family, then to
the kind-disambiguated family with the kind label added. -/
def setGaugeMetric (kind : String) (m : MetricId) (value : Int) (labels : Labels) : List Effect :=
  [.gaugeSet m false value labels, .gaugeSet m true value (labels ++ [(MetricLabelKind, kind)])]

/-- Go `Controller.deleteGaugeMetric`. -/
def deleteGaugeMetric (kind : String) (m : MetricId) (labels : Labels) : List Effect :=
  [.gaugeDelete m false labels, .gaugeDelete m true (labels ++ [(MetricLabelKind, kind)])]

/-- Go `Controller.deletePartialMatchGaugeMetric`. -/
def deletePartialMatchGaugeMetric (kind : String) (m : MetricId) (labels : Labels) : List Effect :=
  [.gaugeDeletePartialMatch m false labels,
   .gaugeDeletePartialMatch m true (labels ++ [(MetricLabelKind, kind)])]

/-- Go `Controller.incCounterMetric`. -/
def incCounterMetric (kind : String) (m : MetricId) (labels : Labels) : List Effect :=
  [.counterInc m false labels, .counterInc m true (labels ++ [(MetricLabelKind, kind)])]

/-- Go `Controller.observeHistogram`. -/
def observeHistogram (kind : String) (m : MetricId) (value : Int) (labels : Labels) : List Effect :=
  [.histObserve m false value labels, .histObserve m true value (labels ++ [(MetricLabelKind, kind)])]

/-- Identity labels used by the not-found branch's partial-match deletes. -/
def idLabels (group ns name : String) : Labels :=
  [(MetricLabelGroup, group), (MetricLabelNamespace, ns), (MetricLabelName, name)]

/-- Per-condition labels used by the gauge sets and exact deletes. -/
def condLabels (group ns name : String) (c : Condition) : Labels :=
  [(MetricLabelGroup, group), (MetricLabelNamespace, ns), (MetricLabelName, name),
   (MetricLabelConditionType, c.type), (MetricLabelConditionStatus, c.status),
   (MetricLabelConditionReason, c.reason)]

/-- Labels of a condition-transitions-total increment. -/
def transIncLabels (group : String) (c : Condition) : Labels :=
  [(MetricLabelGroup, group), (MetricLabelConditionType, c.type),
   (MetricLabelConditionStatus, c.status), (MetricLabelConditionReason, c.reason)]

/-- Labels of a condition-duration histogram observation, keyed by the
previous condition. -/
def durLabels (group : String) (p : Condition) : Labels :=
  [(MetricLabelGroup, group), (MetricLabelConditionType, p.type),
   (MetricLabelConditionStatus, p.status)]

/-- List flat-map over conditions, producing an effect trace. -/
def flatMapEff (f : Condition → List Effect) : List Condition → List Effect
  | [] => []
  | c :: cs => f c ++ flatMapEff f cs

/-- Effects of the not-found branch of `reconcile` (lines 109-130): three
partial-match gauge deletes by identity, then a termination-duration
observation when a deletion timestamp was recorded. -/
def notFoundEffects (kind group ns name : String) (st : ControllerState) (now : Int) : List Effect :=
  deletePartialMatchGaugeMetric kind .conditionCount (idLabels group ns name)
    ++ deletePartialMatchGaugeMetric kind .conditionCurrentStatusSeconds (idLabels group ns name)
    ++ deletePartialMatchGaugeMetric kind .terminationCurrentTimeSeconds (idLabels group ns name)
    ++ (match st.terminatingObjects with
        | some ts => observeHistogram kind .terminationDuration (now - ts) [(MetricLabelGroup, group)]
        | none => [])

/-- Step "condition counts" (lines 143-160): per current condition, set the
condition-count gauge to 1 and the current-status-seconds gauge to the age of
its last transition. -/
def condGaugeEffects (kind group ns name : String) (now : Int) (c : Condition) : List Effect :=
  setGaugeMetric kind .conditionCount 1 (condLabels group ns name c)
    ++ setGaugeMetric kind .conditionCurrentStatusSeconds (now - c.lastTransitionTime)
        (condLabels group ns name c)

/-- Step "termination" (lines 161-168): when the object carries a deletion
timestamp, set the termination gauge and record the timestamp. -/
def terminationEffects (kind group ns name : String) (now : Int) (o : Object) : List Effect :=
  match o.deletionTimestamp with
  | some dt =>
      setGaugeMetric kind .terminationCurrentTimeSeconds (now - dt) (idLabels group ns name)
        ++ [.storeTerminating dt]
  | none => []

/-- Step "retire stale series" (lines 169-188): for a previously observed
condition whose type is now absent or whose status changed, delete both of
its gauge series by exact label match. -/
def staleEffects (kind group ns name : String) (current : List Condition)
    (oc : Condition) : List Effect :=
  if (match ConditionSet.Get current oc.type with
      | none => true
      | some cc => cc.status != oc.status) then
    deleteGaugeMetric kind .conditionCount (condLabels group ns name oc)
      ++ deleteGaugeMetric kind .conditionCurrentStatusSeconds (condLabels group ns name oc)
  else []

/-- The transition event message (lines 226-232): fixed template, message
suffix only when the condition message is non-empty. -/
def transitionEventMessage (prevStatus : String) (c : Condition) : String :=
  "Status condition transitioned, Type: " ++ c.type ++ ", Status: " ++ prevStatus
    ++ " -> " ++ c.status ++ ", Reason: " ++ c.reason
    ++ (if c.message != "" then ", Message: " ++ c.message else "")

/-- Step "detect transitions" (lines 205-233), for one current condition:
skip when the status matches the previously observed one (absent treated as
Unknown); otherwise increment the transitions counter, and - only when a
previous condition existed - observe the dwell-time histogram keyed by the
previous condition and emit one Normal event. -/
def transitionEffects (kind group : String) (observed : List Condition)
    (c : Condition) : List Effect :=
  let oc := ConditionSet.Get observed c.type
  if GetStatus oc == c.status then []
  else
    incCounterMetric kind .conditionTransitionsTotal (transIncLabels group c)
      ++ (match oc with
          | none => []
          | some p =>
              observeHistogram kind .conditionDuration
                  (c.lastTransitionTime - p.lastTransitionTime) (durLabels group p)
                ++ [.eventEmit "Normal" c.type (transitionEventMessage p.status c)])

/-- Effects of the successful branch, in program order: publish the fresh
condition set to the cache, set per-condition gauges, termination gauge and
timestamp, retire stale series, then transition counters/histograms/events. -/
def foundEffects (kind group ns name : String) (observed : List Condition)
    (o : Object) (now : Int) : List Effect :=
  Effect.storeObserved o.conditions
    :: (flatMapEff (condGaugeEffects kind group ns name now) o.conditions
        ++ terminationEffects kind group ns name now o
        ++ flatMapEff (staleEffects kind group ns name o.conditions) observed
        ++ flatMapEff (transitionEffects kind group observed) o.conditions)

/-- Go `Controller.reconcile` (lines 105-235): given the per-request cache state
and the fetch outcome, the new cache state, the effect trace, and the result
(`Except Unit` models the Go error; `Option Nat` the `RequeueAfter`, `none`
for the zero `reconcile.Result{}`). -/
def reconcile (kind group ns name : String) (st : ControllerState) (fetch : FetchResult)
    (now : Int) : ControllerState × List Effect × Except Unit (Option Nat) :=
  match fetch with
  | .fetchError => (st, [], .error ())
  | .notFound => (st, notFoundEffects kind group ns name st now, .ok none)
  | .found o =>
      let observed := st.observedConditions.getD []
      let st1 : ControllerState :=
        { observedConditions := some o.conditions
          terminatingObjects :=
            match o.deletionTimestamp with
            | some dt => some dt
            | none => st.terminatingObjects }
      (st1, foundEffects kind group ns name observed o now, .ok (some 10))

/-- Runs `n` consecutive reconciles of the same identity that all find the object
not-found, chaining the cache state and concatenating the traces. -/
def reconcileNotFoundN (kind group ns name : String) (now : Int) :
    ControllerState → Nat → ControllerState × List Effect
  | st, 0 => (st, [])
  | st, n + 1 =>
      let r := reconcile kind group ns name st .notFound now
      let rest := reconcileNotFoundN kind group ns name now r.1 n
      (rest.1, r.2.1 ++ rest.2)

/-- The effect trace emitted by one reconcile invocation. -/
def reconcileTrace (kind group ns name : String) (st : ControllerState) (fetch : FetchResult)
    (now : Int) : List Effect :=
  (reconcile kind group ns name st fetch now).2.1


/-! ## Predicates over trace effects -/

/-- Matches the per-family condition-transitions-total increment with the
given family flag and exact label set. -/
def isTransIncAt (dep : Bool) (labels : Labels) : Effect → Bool
  | .counterInc .conditionTransitionsTotal d l => d == dep && l == labels
  | _ => false

/-- Matches any condition-transitions-total increment. -/
def isAnyTransInc : Effect → Bool
  | .counterInc .conditionTransitionsTotal _ _ => true
  | _ => false

/-- Matches a gauge set with the given family, value, and labels. -/
def isGaugeSetAt (m : MetricId) (dep : Bool) (v : Int) (labels : Labels) : Effect → Bool
  | .gaugeSet m' d v' l => m' == m && d == dep && v' == v && l == labels
  | _ => false

/-- Matches an exact-label gauge delete with the given family and labels. -/
def isGaugeDeleteAt (m : MetricId) (dep : Bool) (labels : Labels) : Effect → Bool
  | .gaugeDelete m' d l => m' == m && d == dep && l == labels
  | _ => false

/-- Matches a partial-match gauge delete with the given family and labels. -/
def isPartialDeleteAt (m : MetricId) (dep : Bool) (labels : Labels) : Effect → Bool
  | .gaugeDeletePartialMatch m' d l => m' == m && d == dep && l == labels
  | _ => false

/-- Matches a histogram observation with the given family, value, labels. -/
def isHistAt (m : MetricId) (dep : Bool) (v : Int) (labels : Labels) : Effect → Bool
  | .histObserve m' d v' l => m' == m && d == dep && v' == v && l == labels
  | _ => false

/-- Matches a termination-duration histogram observation in the
per-kind-named family - one match per logical observation (the adjacent
kind-disambiguated write is covered by the pairing invariant). -/
def isAnyTermDurObs : Effect → Bool
  | .histObserve .terminationDuration false _ _ => true
  | _ => false

/-- Matches any event emission. -/
def isAnyEvent : Effect → Bool
  | .eventEmit _ _ _ => true
  | _ => false

/-- Matches an event whose reason is the given condition type. -/
def isEventReason (t : String) : Effect → Bool
  | .eventEmit _ r _ => r == t
  | _ => false

/-- The label set carries the condition-type key with the given value. -/
def touchesType (t : String) (l : Labels) : Bool :=
  l.any (fun p => p.1 == MetricLabelConditionType && p.2 == t)

/-- Matches a condition-transitions-total increment whose labels carry the
given condition type. -/
def isTransIncTouching (t : String) : Effect → Bool
  | .counterInc .conditionTransitionsTotal _ l => touchesType t l
  | _ => false

/-- Matches a condition-duration observation whose labels carry the given
condition type. -/
def isCondDurTouching (t : String) : Effect → Bool
  | .histObserve .conditionDuration _ _ l => touchesType t l
  | _ => false

/-- Matches an exact-label gauge delete whose labels carry the given
condition type. -/
def isGaugeDeleteTouching (t : String) : Effect → Bool
  | .gaugeDelete _ _ l => touchesType t l
  | _ => false

/-- Matches the condition-set cache store. -/
def isStoreObserved : Effect → Bool
  | .storeObserved _ => true
  | _ => false

/-- Every metric action in the trace is an adjacent dual-family pair: the
per-kind-named write immediately followed by the kind-disambiguated write of
the same kind of action with the same value and the identical labels plus
the kind label.  Events and cache stores stand alone; an unpaired metric
write (in either family) fails the check. -/
def dualOk (kind : String) : List Effect → Bool
  | [] => true
  | .storeObserved _ :: rest => dualOk kind rest
  | .storeTerminating _ :: rest => dualOk kind rest
  | .eventEmit _ _ _ :: rest => dualOk kind rest
  | .gaugeSet m false v l :: .gaugeSet m2 true v2 l2 :: rest =>
      m == m2 && v == v2 && l2 == l ++ [(MetricLabelKind, kind)] && dualOk kind rest
  | .gaugeDelete m false l :: .gaugeDelete m2 true l2 :: rest =>
      m == m2 && l2 == l ++ [(MetricLabelKind, kind)] && dualOk kind rest
  | .gaugeDeletePartialMatch m false l :: .gaugeDeletePartialMatch m2 true l2 :: rest =>
      m == m2 && l2 == l ++ [(MetricLabelKind, kind)] && dualOk kind rest
  | .counterInc m false l :: .counterInc m2 true l2 :: rest =>
      m == m2 && l2 == l ++ [(MetricLabelKind, kind)] && dualOk kind rest
  | .histObserve m false v l :: .histObserve m2 true v2 l2 :: rest =>
      m == m2 && v == v2 && l2 == l ++ [(MetricLabelKind, kind)] && dualOk kind rest
  | _ => false

/-! ## Generic counting lemmas -/

theorem countP_flatMapEff (p : Effect → Bool) (f : Condition → List Effect) :
    ∀ l : List Condition,
      (flatMapEff f l).countP p = (l.map fun c => (f c).countP p).sum := by
  intro l
  induction l with
  | nil => simp [flatMapEff]
  | cons c cs ih => simp [flatMapEff, List.countP_append, ih]

theorem countP_flatMapEff_zero (p : Effect → Bool) (f : Condition → List Effect)
    (l : List Condition) (h : ∀ c ∈ l, (f c).countP p = 0) :
    (flatMapEff f l).countP p = 0 := by
  rw [countP_flatMapEff]
  exact List.sum_eq_zero (by simpa using h)

/-- When the per-block counts vanish off the type of `c` and condition types
are unique, the whole flat-map counts exactly what the block of `c` counts. -/
theorem countP_flatMapEff_single (p : Effect → Bool) (f : Condition → List Effect) :
    ∀ (l : List Condition), (l.map Condition.type).Nodup → ∀ c ∈ l,
      (∀ b ∈ l, b.type ≠ c.type → (f b).countP p = 0) →
      (flatMapEff f l).countP p = (f c).countP p := by
  intro l
  induction l with
  | nil => intro _ c hc; cases hc
  | cons b bs ih =>
      intro hnd c hc hz
      have hnd' : (∀ x ∈ bs, ¬ x.type = b.type) ∧ (bs.map Condition.type).Nodup := by
        simpa using hnd
      rcases List.mem_cons.mp hc with rfl | hc'
      · have hz' : ∀ x ∈ bs, (f x).countP p = 0 := by
          intro x hx
          exact hz x (List.mem_cons_of_mem _ hx) (hnd'.1 x hx)
        simp [flatMapEff, List.countP_append, countP_flatMapEff_zero p f bs hz']
      · have hbt : b.type ≠ c.type := fun he => hnd'.1 c hc' he.symm
        have hb0 : (f b).countP p = 0 := hz b (List.mem_cons_self b bs) hbt
        have := ih hnd'.2 c hc' (fun x hx ht => hz x (List.mem_cons_of_mem _ hx) ht)
        simp [flatMapEff, List.countP_append, hb0, this]

/-- A found condition has the looked-up type. -/
theorem ConditionSet.Get_type {s : List Condition} {t : String} {p : Condition}
    (h : ConditionSet.Get s t = some p) : p.type = t := by
  have := List.find?_some h
  simpa using this

/-! ## Evaluation of the transition block -/

/-- Status unchanged (absent treated as Unknown): the block is empty - no
counter, histogram, or event for this condition. -/
theorem transBlock_of_eq (kind group : String) (observed : List Condition) (c : Condition)
    (h : GetStatus (ConditionSet.Get observed c.type) = c.status) :
    transitionEffects kind group observed c = [] := by
  simp [transitionEffects, h]

/-- First-seen condition with a changed status: counter increment only. -/
theorem transBlock_of_ne_none (kind group : String) (observed : List Condition) (c : Condition)
    (hn : ConditionSet.Get observed c.type = none) (h : c.status ≠ "Unknown") :
    transitionEffects kind group observed c =
      incCounterMetric kind .conditionTransitionsTotal (transIncLabels group c) := by
  simp [transitionEffects, hn, GetStatus, Ne.symm h]

/-- Previously observed condition with a changed status: counter increment,
dwell-time observation keyed by the previous condition, and one event. -/
theorem transBlock_of_ne_some (kind group : String) (observed : List Condition) (c p : Condition)
    (hs : ConditionSet.Get observed c.type = some p) (h : p.status ≠ c.status) :
    transitionEffects kind group observed c =
      incCounterMetric kind .conditionTransitionsTotal (transIncLabels group c)
        ++ (observeHistogram kind .conditionDuration
              (c.lastTransitionTime - p.lastTransitionTime) (durLabels group p)
            ++ [.eventEmit "Normal" c.type (transitionEventMessage p.status c)]) := by
  simp [transitionEffects, hs, GetStatus, h]

/-! ## Label-set facts -/

theorem transIncLabels_beq_false (group : String) {b c : Condition} (h : b.type ≠ c.type) :
    (transIncLabels group b == transIncLabels group c) = false := by
  simp [transIncLabels, h]

theorem touchesType_transIncLabels (t group : String) (b : Condition) :
    touchesType t (transIncLabels group b) = (b.type == t) := by
  simp [touchesType, transIncLabels, MetricLabelGroup, MetricLabelConditionType,
    MetricLabelConditionStatus, MetricLabelConditionReason]

theorem touchesType_durLabels (t group : String) (p : Condition) :
    touchesType t (durLabels group p) = (p.type == t) := by
  simp [touchesType, durLabels, MetricLabelGroup, MetricLabelConditionType,
    MetricLabelConditionStatus]

theorem touchesType_condLabels (t group ns name : String) (c : Condition) :
    touchesType t (condLabels group ns name c) = (c.type == t) := by
  simp [touchesType, condLabels, MetricLabelGroup, MetricLabelNamespace, MetricLabelName,
    MetricLabelConditionType, MetricLabelConditionStatus, MetricLabelConditionReason]

theorem touchesType_append (t : String) (l1 l2 : Labels) :
    touchesType t (l1 ++ l2) = (touchesType t l1 || touchesType t l2) := by
  simp [touchesType]

theorem touchesType_kindPair (t kind : String) :
    touchesType t [(MetricLabelKind, kind)] = false := by
  simp [touchesType, MetricLabelKind, MetricLabelConditionType]

theorem condLabels_beq_false (group ns name : String) {b c : Condition} (h : b.type ≠ c.type) :
    (condLabels group ns name b == condLabels group ns name c) = false := by
  simp [condLabels, h]

/-! ## Segment reduction lemmas for the successful branch -/

/-- A predicate indifferent to cache stores, gauge sets and gauge deletes
counts only the transition segment of the successful trace. -/
theorem countP_foundEffects_transition (p : Effect → Bool) (kind group ns name : String)
    (observed : List Condition) (o : Object) (now : Int)
    (hstore : ∀ cs, p (.storeObserved cs) = false)
    (hsterm : ∀ ts, p (.storeTerminating ts) = false)
    (hset : ∀ m d v l, p (.gaugeSet m d v l) = false)
    (hdel : ∀ m d l, p (.gaugeDelete m d l) = false) :
    (foundEffects kind group ns name observed o now).countP p =
      (flatMapEff (transitionEffects kind group observed) o.conditions).countP p := by
  have hA : (flatMapEff (condGaugeEffects kind group ns name now) o.conditions).countP p = 0 :=
    countP_flatMapEff_zero p _ _ (fun c _ => by
      simp [condGaugeEffects, setGaugeMetric, List.countP_cons, List.countP_append, hset])
  have hB : (terminationEffects kind group ns name now o).countP p = 0 := by
    cases h : o.deletionTimestamp <;>
      simp [terminationEffects, h, setGaugeMetric, List.countP_cons, List.countP_append,
        hset, hsterm]
  have hC : (flatMapEff (staleEffects kind group ns name o.conditions) observed).countP p = 0 :=
    countP_flatMapEff_zero p _ _ (fun c _ => by
      unfold staleEffects
      split <;> simp [deleteGaugeMetric, List.countP_cons, List.countP_append, hdel])
  simp [foundEffects, List.countP_cons, List.countP_append, hstore, hA, hB, hC]

/-- A predicate indifferent to cache stores, gauge sets, counter increments,
histogram observations and events counts only the stale-retirement segment. -/
theorem countP_foundEffects_stale (p : Effect → Bool) (kind group ns name : String)
    (observed : List Condition) (o : Object) (now : Int)
    (hstore : ∀ cs, p (.storeObserved cs) = false)
    (hsterm : ∀ ts, p (.storeTerminating ts) = false)
    (hset : ∀ m d v l, p (.gaugeSet m d v l) = false)
    (hcounter : ∀ m d l, p (.counterInc m d l) = false)
    (hhist : ∀ m d v l, p (.histObserve m d v l) = false)
    (hevent : ∀ a b m, p (.eventEmit a b m) = false) :
    (foundEffects kind group ns name observed o now).countP p =
      (flatMapEff (staleEffects kind group ns name o.conditions) observed).countP p := by
  have hA : (flatMapEff (condGaugeEffects kind group ns name now) o.conditions).countP p = 0 :=
    countP_flatMapEff_zero p _ _ (fun c _ => by
      simp [condGaugeEffects, setGaugeMetric, List.countP_cons, List.countP_append, hset])
  have hB : (terminationEffects kind group ns name now o).countP p = 0 := by
    cases h : o.deletionTimestamp <;>
      simp [terminationEffects, h, setGaugeMetric, List.countP_cons, List.countP_append,
        hset, hsterm]
  have hD : (flatMapEff (transitionEffects kind group observed) o.conditions).countP p = 0 :=
    countP_flatMapEff_zero p _ _ (fun c _ => by
      rcases hoc : ConditionSet.Get observed c.type with _ | q <;>
        by_cases hst : GetStatus (ConditionSet.Get observed c.type) = c.status
      · simp [transBlock_of_eq kind group observed c hst]
      · rw [transBlock_of_ne_none kind group observed c hoc
            (by rw [hoc] at hst; exact fun he => hst (by simp [GetStatus, he]))]
        simp [incCounterMetric, List.countP_cons, hcounter]
      · simp [transBlock_of_eq kind group observed c hst]
      · rw [transBlock_of_ne_some kind group observed c q hoc
            (by rw [hoc] at hst; simpa [GetStatus] using hst)]
        simp [incCounterMetric, observeHistogram, List.countP_cons, List.countP_append,
          hcounter, hhist, hevent])
  simp [foundEffects, List.countP_cons, List.countP_append, hstore, hA, hB, hD]

/-- The transition block of a condition never contains cache stores, gauge
sets, gauge deletes, or partial-match deletes; a predicate rejecting
counters, histograms, and events therefore counts nothing in it. -/
theorem countP_transBlock_zero (p : Effect → Bool) (kind group : String)
    (observed : List Condition) (c : Condition)
    (hcounter : ∀ m d l, p (.counterInc m d l) = false)
    (hhist : ∀ m d v l, p (.histObserve m d v l) = false)
    (hevent : ∀ a b m, p (.eventEmit a b m) = false) :
    (transitionEffects kind group observed c).countP p = 0 := by
  by_cases hst : GetStatus (ConditionSet.Get observed c.type) = c.status
  · simp [transBlock_of_eq kind group observed c hst]
  · rcases hoc : ConditionSet.Get observed c.type with _ | q
    · rw [transBlock_of_ne_none kind group observed c hoc
        (by rw [hoc] at hst; simp [GetStatus] at hst; exact Ne.symm hst)]
      simp [incCounterMetric, List.countP_cons, hcounter]
    · rw [transBlock_of_ne_some kind group observed c q hoc
        (by rw [hoc] at hst; simpa [GetStatus] using hst)]
      simp [incCounterMetric, observeHistogram, List.countP_cons, List.countP_append,
        hcounter, hhist, hevent]

/-- The successful branch of `reconcile` emits exactly `foundEffects`. -/
theorem reconcileTrace_found (kind group ns name : String) (st : ControllerState) (o : Object)
    (now : Int) :
    reconcileTrace kind group ns name st (.found o) now =
      foundEffects kind group ns name (st.observedConditions.getD []) o now := rfl

/-! ## Claims -/

/-- C7: If fetching the object fails with any error other than not-found,
`reconcile` returns an error and performs no metric write, no event
emission, and no mutation of the observed-conditions or terminating-objects
caches: the full outcome is the unchanged state, an empty effect trace, and
the error result. -/
theorem fetchError_reconcile_inert (kind group ns name : String) (st : ControllerState)
    (now : Int) :
    reconcile kind group ns name st .fetchError now = (st, [], .error ()) := rfl

/-- C4: On the successful path, the freshly fetched object's condition
set is stored into the observation cache strictly before any diff-derived
side effect: the store is the head of the effect trace (so nothing precedes
it), and it is the only store of observed conditions in the invocation. -/
theorem store_precedes_side_effects (kind group ns name : String) (st : ControllerState)
    (o : Object) (now : Int) :
    (reconcileTrace kind group ns name st (.found o) now).head? =
        some (Effect.storeObserved o.conditions) ∧
    (reconcileTrace kind group ns name st (.found o) now).countP isStoreObserved = 1 := by
  constructor
  · rfl
  · rw [reconcileTrace_found]
    have hA := countP_flatMapEff_zero isStoreObserved (condGaugeEffects kind group ns name now)
      o.conditions (fun c _ => by
        simp [condGaugeEffects, setGaugeMetric, List.countP_cons, List.countP_append,
          isStoreObserved])
    have hB : (terminationEffects kind group ns name now o).countP isStoreObserved = 0 := by
      cases h : o.deletionTimestamp <;>
        simp [terminationEffects, h, setGaugeMetric, List.countP_cons, List.countP_append,
          isStoreObserved]
    have hC := countP_flatMapEff_zero isStoreObserved
      (staleEffects kind group ns name o.conditions) (st.observedConditions.getD [])
      (fun c _ => by
        unfold staleEffects
        split <;> simp [deleteGaugeMetric, List.countP_cons, List.countP_append, isStoreObserved])
    have hD := countP_flatMapEff_zero isStoreObserved
      (transitionEffects kind group (st.observedConditions.getD [])) o.conditions
      (fun c _ => countP_transBlock_zero _ _ _ _ _ (by simp [isStoreObserved])
        (by simp [isStoreObserved]) (by simp [isStoreObserved]))
    simp [foundEffects, List.countP_cons, List.countP_append, hA, hB, hC, hD, isStoreObserved]

/-- C3: On not-found, `reconcile` partial-match-deletes the
condition-count, condition-current-status-seconds, and
termination-current-time-seconds series by (group, namespace, name) in both
families, emits one termination-duration observation of
(now - recorded deletion timestamp) iff a deletion timestamp was recorded,
emits no event, and returns success with no requeue delay and an unchanged
state. -/
theorem notFound_reconcile_behavior (kind group ns name : String) (st : ControllerState)
    (now : Int) :
    (reconcile kind group ns name st .notFound now).2.2 = Except.ok none ∧
    (reconcile kind group ns name st .notFound now).1 = st ∧
    (reconcileTrace kind group ns name st .notFound now).countP
        (isPartialDeleteAt .conditionCount false (idLabels group ns name)) = 1 ∧
    (reconcileTrace kind group ns name st .notFound now).countP
        (isPartialDeleteAt .conditionCount true
          (idLabels group ns name ++ [(MetricLabelKind, kind)])) = 1 ∧
    (reconcileTrace kind group ns name st .notFound now).countP
        (isPartialDeleteAt .conditionCurrentStatusSeconds false (idLabels group ns name)) = 1 ∧
    (reconcileTrace kind group ns name st .notFound now).countP
        (isPartialDeleteAt .conditionCurrentStatusSeconds true
          (idLabels group ns name ++ [(MetricLabelKind, kind)])) = 1 ∧
    (reconcileTrace kind group ns name st .notFound now).countP
        (isPartialDeleteAt .terminationCurrentTimeSeconds false (idLabels group ns name)) = 1 ∧
    (reconcileTrace kind group ns name st .notFound now).countP
        (isPartialDeleteAt .terminationCurrentTimeSeconds true
          (idLabels group ns name ++ [(MetricLabelKind, kind)])) = 1 ∧
    (reconcileTrace kind group ns name st .notFound now).countP isAnyEvent = 0 ∧
    (reconcileTrace kind group ns name st .notFound now).countP isAnyTermDurObs
        = (if st.terminatingObjects.isSome then 1 else 0) ∧
    (∀ ts : Int, st.terminatingObjects = some ts →
      (reconcileTrace kind group ns name st .notFound now).countP
          (isHistAt .terminationDuration false (now - ts) [(MetricLabelGroup, group)]) = 1) := by
  rcases h : st.terminatingObjects with _ | ts <;>
    (simp only [reconcile, reconcileTrace, notFoundEffects, h, deletePartialMatchGaugeMetric,
      observeHistogram, List.countP_cons, List.countP_append, List.countP_nil]
     simp [isPartialDeleteAt, isAnyEvent, isAnyTermDurObs, isHistAt])

/-- Witness for C3: at a concrete identity with a recorded deletion
timestamp, the termination-duration observation carries the elapsed time. -/
theorem notFound_reconcile_behavior_witness :
    (reconcileTrace "k" "g" "a" "b" ⟨none, some 4⟩ .notFound 10).countP
        (isHistAt .terminationDuration false (10 - 4) [(MetricLabelGroup, "g")]) = 1 := by
  have h := notFound_reconcile_behavior "k" "g" "a" "b" ⟨none, some 4⟩ 10
  exact h.2.2.2.2.2.2.2.2.2.2 4 rfl

/-- C10: Once a deletion timestamp is recorded for an identity, the
not-found branch never removes it, and each of `n` consecutive not-found
reconciles emits one more termination-duration observation: `n` reconciles
produce exactly `n` observations and leave the recorded timestamp in
place. -/
theorem terminated_identity_observes_each_notFound (kind group ns name : String) (now : Int)
    (st : ControllerState) (ts : Int) (h : st.terminatingObjects = some ts) (n : Nat) :
    (reconcileNotFoundN kind group ns name now st n).1 = st ∧
    (reconcileNotFoundN kind group ns name now st n).2.countP
        (isHistAt .terminationDuration false (now - ts) [(MetricLabelGroup, group)]) = n := by
  induction n with
  | zero => simp [reconcileNotFoundN]
  | succ n ih =>
      have hone : (notFoundEffects kind group ns name st now).countP
          (isHistAt .terminationDuration false (now - ts) [(MetricLabelGroup, group)]) = 1 := by
        simp [notFoundEffects, h, deletePartialMatchGaugeMetric, observeHistogram, isHistAt,
          List.countP_cons, List.countP_append]
      simp [reconcileNotFoundN, reconcile, List.countP_append, hone, ih.1, ih.2]
      omega

/-- Witness for C10: three consecutive not-found reconciles of an
identity whose deletion timestamp 4 was recorded produce three
observations. -/
theorem terminated_identity_observes_each_notFound_witness :
    (reconcileNotFoundN "k" "g" "a" "b" 10 ⟨none, some 4⟩ 3).1 = (⟨none, some 4⟩ : ControllerState) ∧
    (reconcileNotFoundN "k" "g" "a" "b" 10 ⟨none, some 4⟩ 3).2.countP
        (isHistAt .terminationDuration false (10 - 4) [(MetricLabelGroup, "g")]) = 3 :=
  terminated_identity_observes_each_notFound "k" "g" "a" "b" 10 ⟨none, some 4⟩ 4 rfl 3

/-- A changed status (previous status Unknown when absent) yields exactly one
per-kind-named condition-transitions-total increment labeled by the current
condition's group, type, status, and reason. -/
theorem transIncAt_count_one (kind group ns name : String) (st : ControllerState) (o : Object)
    (now : Int) (c : Condition) (hc : c ∈ o.conditions)
    (hnd : (o.conditions.map Condition.type).Nodup)
    (hne : GetStatus (ConditionSet.Get (st.observedConditions.getD []) c.type) ≠ c.status) :
    (reconcileTrace kind group ns name st (.found o) now).countP
        (isTransIncAt false (transIncLabels group c)) = 1 := by
  rw [reconcileTrace_found]
  rw [countP_foundEffects_transition _ kind group ns name _ o now
    (by simp [isTransIncAt]) (by simp [isTransIncAt]) (by simp [isTransIncAt])
    (by simp [isTransIncAt])]
  have hsingle := countP_flatMapEff_single (isTransIncAt false (transIncLabels group c))
    (transitionEffects kind group (st.observedConditions.getD [])) o.conditions hnd c hc
    (by
      intro b hb hbt
      by_cases hst : GetStatus (ConditionSet.Get (st.observedConditions.getD []) b.type) = b.status
      · simp [transBlock_of_eq kind group _ b hst]
      · rcases hoc : ConditionSet.Get (st.observedConditions.getD []) b.type with _ | q
        · rw [transBlock_of_ne_none kind group _ b hoc
            (by rw [hoc] at hst; simp [GetStatus] at hst; exact Ne.symm hst)]
          simp [incCounterMetric, isTransIncAt, List.countP_cons,
            transIncLabels_beq_false group hbt]
        · rw [transBlock_of_ne_some kind group _ b q hoc
            (by rw [hoc] at hst; simpa [GetStatus] using hst)]
          simp [incCounterMetric, observeHistogram, isTransIncAt, List.countP_cons,
            List.countP_append, transIncLabels_beq_false group hbt])
  rw [hsingle]
  rcases hoc : ConditionSet.Get (st.observedConditions.getD []) c.type with _ | p
  · rw [transBlock_of_ne_none kind group _ c hoc
      (by rw [hoc] at hne; simp [GetStatus] at hne; exact Ne.symm hne)]
    simp [incCounterMetric, isTransIncAt, List.countP_cons]
  · rw [transBlock_of_ne_some kind group _ c p hoc
      (by rw [hoc] at hne; simpa [GetStatus] using hne)]
    simp [incCounterMetric, observeHistogram, isTransIncAt, List.countP_cons,
      List.countP_append]

/-- An unchanged status yields no transition counter, no condition-duration
observation, and no event attributable to that condition's type. -/
theorem transSkip_counts_zero (kind group ns name : String) (st : ControllerState) (o : Object)
    (now : Int) (c : Condition) (hc : c ∈ o.conditions)
    (hnd : (o.conditions.map Condition.type).Nodup)
    (heq : GetStatus (ConditionSet.Get (st.observedConditions.getD []) c.type) = c.status) :
    (reconcileTrace kind group ns name st (.found o) now).countP (isTransIncTouching c.type) = 0 ∧
    (reconcileTrace kind group ns name st (.found o) now).countP (isCondDurTouching c.type) = 0 ∧
    (reconcileTrace kind group ns name st (.found o) now).countP (isEventReason c.type) = 0 := by
  refine ⟨?_, ?_, ?_⟩ <;> rw [reconcileTrace_found]
  · rw [countP_foundEffects_transition _ kind group ns name _ o now
      (by simp [isTransIncTouching]) (by simp [isTransIncTouching])
      (by simp [isTransIncTouching]) (by simp [isTransIncTouching])]
    have hsingle := countP_flatMapEff_single (isTransIncTouching c.type)
      (transitionEffects kind group (st.observedConditions.getD [])) o.conditions hnd c hc
      (by
        intro b hb hbt
        by_cases hst : GetStatus (ConditionSet.Get (st.observedConditions.getD []) b.type)
            = b.status
        · simp [transBlock_of_eq kind group _ b hst]
        · rcases hoc : ConditionSet.Get (st.observedConditions.getD []) b.type with _ | q
          · rw [transBlock_of_ne_none kind group _ b hoc
              (by rw [hoc] at hst; simp [GetStatus] at hst; exact Ne.symm hst)]
            simp [incCounterMetric, isTransIncTouching, List.countP_cons,
              touchesType_transIncLabels, touchesType_append, touchesType_kindPair, hbt]
          · rw [transBlock_of_ne_some kind group _ b q hoc
              (by rw [hoc] at hst; simpa [GetStatus] using hst)]
            simp [incCounterMetric, observeHistogram, isTransIncTouching, List.countP_cons,
              List.countP_append, touchesType_transIncLabels, touchesType_append,
              touchesType_kindPair, hbt])
    rw [hsingle, transBlock_of_eq kind group _ c heq]
    simp
  · rw [countP_foundEffects_transition _ kind group ns name _ o now
      (by simp [isCondDurTouching]) (by simp [isCondDurTouching])
      (by simp [isCondDurTouching]) (by simp [isCondDurTouching])]
    have hsingle := countP_flatMapEff_single (isCondDurTouching c.type)
      (transitionEffects kind group (st.observedConditions.getD [])) o.conditions hnd c hc
      (by
        intro b hb hbt
        by_cases hst : GetStatus (ConditionSet.Get (st.observedConditions.getD []) b.type)
            = b.status
        · simp [transBlock_of_eq kind group _ b hst]
        · rcases hoc : ConditionSet.Get (st.observedConditions.getD []) b.type with _ | q
          · rw [transBlock_of_ne_none kind group _ b hoc
              (by rw [hoc] at hst; simp [GetStatus] at hst; exact Ne.symm hst)]
            simp [incCounterMetric, isCondDurTouching, List.countP_cons]
          · have hq : q.type = b.type := ConditionSet.Get_type hoc
            rw [transBlock_of_ne_some kind group _ b q hoc
              (by rw [hoc] at hst; simpa [GetStatus] using hst)]
            simp [incCounterMetric, observeHistogram, isCondDurTouching, List.countP_cons,
              List.countP_append, touchesType_durLabels, touchesType_append,
              touchesType_kindPair, hq, hbt])
    rw [hsingle, transBlock_of_eq kind group _ c heq]
    simp
  · rw [countP_foundEffects_transition _ kind group ns name _ o now
      (by simp [isEventReason]) (by simp [isEventReason])
      (by simp [isEventReason]) (by simp [isEventReason])]
    have hsingle := countP_flatMapEff_single (isEventReason c.type)
      (transitionEffects kind group (st.observedConditions.getD [])) o.conditions hnd c hc
      (by
        intro b hb hbt
        by_cases hst : GetStatus (ConditionSet.Get (st.observedConditions.getD []) b.type)
            = b.status
        · simp [transBlock_of_eq kind group _ b hst]
        · rcases hoc : ConditionSet.Get (st.observedConditions.getD []) b.type with _ | q
          · rw [transBlock_of_ne_none kind group _ b hoc
              (by rw [hoc] at hst; simp [GetStatus] at hst; exact Ne.symm hst)]
            simp [incCounterMetric, isEventReason, List.countP_cons]
          · rw [transBlock_of_ne_some kind group _ b q hoc
              (by rw [hoc] at hst; simpa [GetStatus] using hst)]
            simp [incCounterMetric, observeHistogram, isEventReason, List.countP_cons,
              List.countP_append, hbt])
    rw [hsingle, transBlock_of_eq kind group _ c heq]
    simp

/-- C1: During a successful reconcile, for every condition on the fetched
object (condition types unique per the data-model invariant), the
condition-transitions-total counter for (group, type, status, reason) is
incremented exactly when the status differs from the previously observed
same-typed condition's status (Unknown when absent); when the statuses are
equal, no transition counter, condition-duration observation, or event is
emitted for that condition. -/
theorem transition_counter_iff_status_change (kind group ns name : String)
    (st : ControllerState) (o : Object) (now : Int) (c : Condition) (hc : c ∈ o.conditions)
    (hnd : (o.conditions.map Condition.type).Nodup) :
    (GetStatus (ConditionSet.Get (st.observedConditions.getD []) c.type) ≠ c.status →
      (reconcileTrace kind group ns name st (.found o) now).countP
          (isTransIncAt false (transIncLabels group c)) = 1) ∧
    (GetStatus (ConditionSet.Get (st.observedConditions.getD []) c.type) = c.status →
      (reconcileTrace kind group ns name st (.found o) now).countP
            (isTransIncTouching c.type) = 0 ∧
        (reconcileTrace kind group ns name st (.found o) now).countP
            (isCondDurTouching c.type) = 0 ∧
        (reconcileTrace kind group ns name st (.found o) now).countP
            (isEventReason c.type) = 0) :=
  ⟨fun hne => transIncAt_count_one kind group ns name st o now c hc hnd hne,
   fun heq => transSkip_counts_zero kind group ns name st o now c hc hnd heq⟩

/-- Witness for C1: a condition transitioning False to True yields one
increment with its current labels. -/
theorem transition_counter_iff_status_change_witness :
    (reconcileTrace "k" "g" "a" "b" ⟨some [⟨"Foo", "False", "r0", "m", 3⟩], none⟩
        (.found ⟨[⟨"Foo", "True", "r", "", 5⟩], none⟩) 10).countP
      (isTransIncAt false (transIncLabels "g" ⟨"Foo", "True", "r", "", 5⟩)) = 1 :=
  (transition_counter_iff_status_change "k" "g" "a" "b"
      ⟨some [⟨"Foo", "False", "r0", "m", 3⟩], none⟩ ⟨[⟨"Foo", "True", "r", "", 5⟩], none⟩ 10
      ⟨"Foo", "True", "r", "", 5⟩ (by decide) (by decide)).1 (by decide)

/-- C5 counterexample: The claim fails as stated: a first-seen condition
whose status is Unknown (type absent from the previous observation) produces
no condition-transitions-total increment at all, because the absent previous
condition is also treated as Unknown and the routine skips equal statuses. -/
theorem first_seen_unknown_no_increment :
    ConditionSet.Get [] "Foo" = none ∧
    (⟨"Foo", "Unknown", "r", "", 5⟩ : Condition) ∈
      (⟨[⟨"Foo", "Unknown", "r", "", 5⟩], none⟩ : Object).conditions ∧
    (reconcileTrace "k" "g" "a" "b" ⟨none, none⟩
        (.found ⟨[⟨"Foo", "Unknown", "r", "", 5⟩], none⟩) 10).countP isAnyTransInc = 0 := by
  decide

/-- C5 (amended): For every condition on the fetched object whose type is
absent from the previous observation and whose status is not Unknown,
reconcile increments the condition-transitions-total counter labeled with the
condition's current type, status, and reason: such a first-seen condition
counts as a transition into its current status. -/
theorem first_seen_non_unknown_counts_transition (kind group ns name : String)
    (st : ControllerState) (o : Object) (now : Int) (c : Condition) (hc : c ∈ o.conditions)
    (hnd : (o.conditions.map Condition.type).Nodup)
    (habs : ConditionSet.Get (st.observedConditions.getD []) c.type = none)
    (hstatus : c.status ≠ "Unknown") :
    (reconcileTrace kind group ns name st (.found o) now).countP
        (isTransIncAt false (transIncLabels group c)) = 1 :=
  transIncAt_count_one kind group ns name st o now c hc hnd
    (by rw [habs]; simp [GetStatus]; exact Ne.symm hstatus)

/-- Witness for the amended C5: a first-seen True condition yields one
increment. -/
theorem first_seen_non_unknown_counts_transition_witness :
    (reconcileTrace "k" "g" "a" "b" ⟨none, none⟩
        (.found ⟨[⟨"Foo", "True", "r", "", 5⟩], none⟩) 10).countP
      (isTransIncAt false (transIncLabels "g" ⟨"Foo", "True", "r", "", 5⟩)) = 1 :=
  first_seen_non_unknown_counts_transition "k" "g" "a" "b" ⟨none, none⟩
    ⟨[⟨"Foo", "True", "r", "", 5⟩], none⟩ 10 ⟨"Foo", "True", "r", "", 5⟩
    (by decide) (by decide) (by decide) (by decide)

theorem durLabels_beq_false (group : String) {q p : Condition} (h : q.type ≠ p.type) :
    (durLabels group q == durLabels group p) = false := by
  simp [durLabels, h]

/-- A transition from an existing previous condition yields exactly one
dwell-time observation (value: current minus previous last-transition time,
labels keyed by the previous condition) and exactly one event. -/
theorem transHistEvent_count_one (kind group ns name : String) (st : ControllerState)
    (o : Object) (now : Int) (c p : Condition) (hc : c ∈ o.conditions)
    (hnd : (o.conditions.map Condition.type).Nodup)
    (hs : ConditionSet.Get (st.observedConditions.getD []) c.type = some p)
    (hne : p.status ≠ c.status) :
    (reconcileTrace kind group ns name st (.found o) now).countP
        (isHistAt .conditionDuration false (c.lastTransitionTime - p.lastTransitionTime)
          (durLabels group p)) = 1 ∧
    (reconcileTrace kind group ns name st (.found o) now).countP (isEventReason c.type) = 1 := by
  have hp : p.type = c.type := ConditionSet.Get_type hs
  constructor <;> rw [reconcileTrace_found]
  · rw [countP_foundEffects_transition _ kind group ns name _ o now
      (by simp [isHistAt]) (by simp [isHistAt]) (by simp [isHistAt]) (by simp [isHistAt])]
    have hsingle := countP_flatMapEff_single
      (isHistAt .conditionDuration false (c.lastTransitionTime - p.lastTransitionTime)
        (durLabels group p))
      (transitionEffects kind group (st.observedConditions.getD [])) o.conditions hnd c hc
      (by
        intro b hb hbt
        by_cases hst : GetStatus (ConditionSet.Get (st.observedConditions.getD []) b.type)
            = b.status
        · simp [transBlock_of_eq kind group _ b hst]
        · rcases hoc : ConditionSet.Get (st.observedConditions.getD []) b.type with _ | q
          · rw [transBlock_of_ne_none kind group _ b hoc
              (by rw [hoc] at hst; simp [GetStatus] at hst; exact Ne.symm hst)]
            simp [incCounterMetric, isHistAt, List.countP_cons]
          · have hq : q.type = b.type := ConditionSet.Get_type hoc
            have hqp : q.type ≠ p.type := by rw [hq, hp]; exact hbt
            rw [transBlock_of_ne_some kind group _ b q hoc
              (by rw [hoc] at hst; simpa [GetStatus] using hst)]
            simp [incCounterMetric, observeHistogram, isHistAt, List.countP_cons,
              List.countP_append, durLabels_beq_false group hqp])
    rw [hsingle, transBlock_of_ne_some kind group _ c p hs hne]
    simp [incCounterMetric, observeHistogram, isHistAt, List.countP_cons, List.countP_append]
  · rw [countP_foundEffects_transition _ kind group ns name _ o now
      (by simp [isEventReason]) (by simp [isEventReason])
      (by simp [isEventReason]) (by simp [isEventReason])]
    have hsingle := countP_flatMapEff_single (isEventReason c.type)
      (transitionEffects kind group (st.observedConditions.getD [])) o.conditions hnd c hc
      (by
        intro b hb hbt
        by_cases hst : GetStatus (ConditionSet.Get (st.observedConditions.getD []) b.type)
            = b.status
        · simp [transBlock_of_eq kind group _ b hst]
        · rcases hoc : ConditionSet.Get (st.observedConditions.getD []) b.type with _ | q
          · rw [transBlock_of_ne_none kind group _ b hoc
              (by rw [hoc] at hst; simp [GetStatus] at hst; exact Ne.symm hst)]
            simp [incCounterMetric, isEventReason, List.countP_cons]
          · rw [transBlock_of_ne_some kind group _ b q hoc
              (by rw [hoc] at hst; simpa [GetStatus] using hst)]
            simp [incCounterMetric, observeHistogram, isEventReason, List.countP_cons,
              List.countP_append, hbt])
    rw [hsingle, transBlock_of_ne_some kind group _ c p hs hne]
    simp [incCounterMetric, observeHistogram, isEventReason, List.countP_cons,
      List.countP_append]

/-- A first-seen condition (no previous condition of its type) yields no
condition-duration observation and no event for its type, whatever its
status. -/
theorem firstSeen_no_hist_event (kind group ns name : String) (st : ControllerState)
    (o : Object) (now : Int) (c : Condition) (hc : c ∈ o.conditions)
    (hnd : (o.conditions.map Condition.type).Nodup)
    (habs : ConditionSet.Get (st.observedConditions.getD []) c.type = none) :
    (reconcileTrace kind group ns name st (.found o) now).countP
        (isCondDurTouching c.type) = 0 ∧
    (reconcileTrace kind group ns name st (.found o) now).countP (isEventReason c.type) = 0 := by
  constructor <;> rw [reconcileTrace_found]
  · rw [countP_foundEffects_transition _ kind group ns name _ o now
      (by simp [isCondDurTouching]) (by simp [isCondDurTouching])
      (by simp [isCondDurTouching]) (by simp [isCondDurTouching])]
    have hsingle := countP_flatMapEff_single (isCondDurTouching c.type)
      (transitionEffects kind group (st.observedConditions.getD [])) o.conditions hnd c hc
      (by
        intro b hb hbt
        by_cases hst : GetStatus (ConditionSet.Get (st.observedConditions.getD []) b.type)
            = b.status
        · simp [transBlock_of_eq kind group _ b hst]
        · rcases hoc : ConditionSet.Get (st.observedConditions.getD []) b.type with _ | q
          · rw [transBlock_of_ne_none kind group _ b hoc
              (by rw [hoc] at hst; simp [GetStatus] at hst; exact Ne.symm hst)]
            simp [incCounterMetric, isCondDurTouching, List.countP_cons]
          · have hq : q.type = b.type := ConditionSet.Get_type hoc
            rw [transBlock_of_ne_some kind group _ b q hoc
              (by rw [hoc] at hst; simpa [GetStatus] using hst)]
            simp [incCounterMetric, observeHistogram, isCondDurTouching, List.countP_cons,
              List.countP_append, touchesType_durLabels, touchesType_append,
              touchesType_kindPair, hq, hbt])
    rw [hsingle]
    by_cases hst : GetStatus (ConditionSet.Get (st.observedConditions.getD []) c.type) = c.status
    · simp [transBlock_of_eq kind group _ c hst]
    · rw [transBlock_of_ne_none kind group _ c habs
        (by rw [habs] at hst; simp [GetStatus] at hst; exact Ne.symm hst)]
      simp [incCounterMetric, isCondDurTouching, List.countP_cons]
  · rw [countP_foundEffects_transition _ kind group ns name _ o now
      (by simp [isEventReason]) (by simp [isEventReason])
      (by simp [isEventReason]) (by simp [isEventReason])]
    have hsingle := countP_flatMapEff_single (isEventReason c.type)
      (transitionEffects kind group (st.observedConditions.getD [])) o.conditions hnd c hc
      (by
        intro b hb hbt
        by_cases hst : GetStatus (ConditionSet.Get (st.observedConditions.getD []) b.type)
            = b.status
        · simp [transBlock_of_eq kind group _ b hst]
        · rcases hoc : ConditionSet.Get (st.observedConditions.getD []) b.type with _ | q
          · rw [transBlock_of_ne_none kind group _ b hoc
              (by rw [hoc] at hst; simp [GetStatus] at hst; exact Ne.symm hst)]
            simp [incCounterMetric, isEventReason, List.countP_cons]
          · rw [transBlock_of_ne_some kind group _ b q hoc
              (by rw [hoc] at hst; simpa [GetStatus] using hst)]
            simp [incCounterMetric, observeHistogram, isEventReason, List.countP_cons,
              List.countP_append, hbt])
    rw [hsingle]
    by_cases hst : GetStatus (ConditionSet.Get (st.observedConditions.getD []) c.type) = c.status
    · simp [transBlock_of_eq kind group _ c hst]
    · rw [transBlock_of_ne_none kind group _ c habs
        (by rw [habs] at hst; simp [GetStatus] at hst; exact Ne.symm hst)]
      simp [incCounterMetric, isEventReason, List.countP_cons]

/-- C2: When a condition's status differs from a previously observed
same-typed condition, reconcile emits exactly one condition-duration
observation of (current minus previous LastTransitionTime) labeled by group
and the previous condition's type and status, together with exactly one
event; when no same-typed previous condition existed, no such observation
and no event are emitted for that condition. -/
theorem dwell_histogram_and_event_on_transition (kind group ns name : String)
    (st : ControllerState) (o : Object) (now : Int) (c : Condition) (hc : c ∈ o.conditions)
    (hnd : (o.conditions.map Condition.type).Nodup) :
    (∀ p : Condition, ConditionSet.Get (st.observedConditions.getD []) c.type = some p →
      p.status ≠ c.status →
      (reconcileTrace kind group ns name st (.found o) now).countP
          (isHistAt .conditionDuration false (c.lastTransitionTime - p.lastTransitionTime)
            (durLabels group p)) = 1 ∧
      (reconcileTrace kind group ns name st (.found o) now).countP (isEventReason c.type) = 1) ∧
    (ConditionSet.Get (st.observedConditions.getD []) c.type = none →
      (reconcileTrace kind group ns name st (.found o) now).countP
          (isCondDurTouching c.type) = 0 ∧
      (reconcileTrace kind group ns name st (.found o) now).countP (isEventReason c.type) = 0) :=
  ⟨fun p hs hne => transHistEvent_count_one kind group ns name st o now c p hc hnd hs hne,
   fun habs => firstSeen_no_hist_event kind group ns name st o now c hc hnd habs⟩

/-- Witness for C2: a False-to-True transition of Foo observed from a
previous condition with LastTransitionTime 3 to a current one with 5 yields
one dwell observation of value 2 and one event. -/
theorem dwell_histogram_and_event_on_transition_witness :
    (reconcileTrace "k" "g" "a" "b" ⟨some [⟨"Foo", "False", "r0", "m", 3⟩], none⟩
        (.found ⟨[⟨"Foo", "True", "r", "", 5⟩], none⟩) 10).countP
      (isHistAt .conditionDuration false ((5 : Int) - 3)
        (durLabels "g" ⟨"Foo", "False", "r0", "m", 3⟩)) = 1 ∧
    (reconcileTrace "k" "g" "a" "b" ⟨some [⟨"Foo", "False", "r0", "m", 3⟩], none⟩
        (.found ⟨[⟨"Foo", "True", "r", "", 5⟩], none⟩) 10).countP (isEventReason "Foo") = 1 :=
  (dwell_histogram_and_event_on_transition "k" "g" "a" "b"
      ⟨some [⟨"Foo", "False", "r0", "m", 3⟩], none⟩ ⟨[⟨"Foo", "True", "r", "", 5⟩], none⟩ 10
      ⟨"Foo", "True", "r", "", 5⟩ (by decide) (by decide)).1
    ⟨"Foo", "False", "r0", "m", 3⟩ (by decide) (by decide)

theorem condLabelsKind_beq_false (group ns name kind : String) {b c : Condition}
    (h : b.type ≠ c.type) :
    ((condLabels group ns name b ++ [(MetricLabelKind, kind)])
      == (condLabels group ns name c ++ [(MetricLabelKind, kind)])) = false := by
  simp [condLabels, h]

/-- A previously observed condition whose type vanished is retired: both of
its gauge series are deleted. -/
theorem staleBlock_retire_none (kind group ns name : String) (current : List Condition)
    (oc : Condition) (h : ConditionSet.Get current oc.type = none) :
    staleEffects kind group ns name current oc =
      deleteGaugeMetric kind .conditionCount (condLabels group ns name oc)
        ++ deleteGaugeMetric kind .conditionCurrentStatusSeconds (condLabels group ns name oc) := by
  simp [staleEffects, h]

/-- A previously observed condition whose status changed is retired. -/
theorem staleBlock_retire_some (kind group ns name : String) (current : List Condition)
    (oc cc : Condition) (h : ConditionSet.Get current oc.type = some cc)
    (hne : cc.status ≠ oc.status) :
    staleEffects kind group ns name current oc =
      deleteGaugeMetric kind .conditionCount (condLabels group ns name oc)
        ++ deleteGaugeMetric kind .conditionCurrentStatusSeconds (condLabels group ns name oc) := by
  simp [staleEffects, h, hne]

/-- A previously observed condition whose status is unchanged is kept. -/
theorem staleBlock_keep (kind group ns name : String) (current : List Condition)
    (oc cc : Condition) (h : ConditionSet.Get current oc.type = some cc)
    (heq : cc.status = oc.status) :
    staleEffects kind group ns name current oc = [] := by
  simp [staleEffects, h, heq]

theorem staleBlock_zero_false (kind group ns name : String) (current : List Condition)
    (m : MetricId) {b oc : Condition} (hbt : b.type ≠ oc.type) :
    (staleEffects kind group ns name current b).countP
        (isGaugeDeleteAt m false (condLabels group ns name oc)) = 0 := by
  unfold staleEffects
  split <;> simp [deleteGaugeMetric, isGaugeDeleteAt, List.countP_cons, List.countP_append,
    condLabels_beq_false group ns name hbt]

theorem staleBlock_zero_true (kind group ns name : String) (current : List Condition)
    (m : MetricId) {b oc : Condition} (hbt : b.type ≠ oc.type) :
    (staleEffects kind group ns name current b).countP
        (isGaugeDeleteAt m true (condLabels group ns name oc ++ [(MetricLabelKind, kind)])) = 0 := by
  unfold staleEffects
  split <;> simp [deleteGaugeMetric, isGaugeDeleteAt, List.countP_cons, List.countP_append,
    condLabelsKind_beq_false group ns name kind hbt]

theorem staleBlock_zero_touch (kind group ns name : String) (current : List Condition)
    {b oc : Condition} (hbt : b.type ≠ oc.type) :
    (staleEffects kind group ns name current b).countP (isGaugeDeleteTouching oc.type) = 0 := by
  unfold staleEffects
  split <;> simp [deleteGaugeMetric, isGaugeDeleteTouching, List.countP_cons,
    List.countP_append, touchesType_condLabels, touchesType_append, touchesType_kindPair, hbt]

/-- C6: For every condition of the previous observation whose type is now
absent or whose status changed, reconcile deletes the condition-count and
condition-current-status-seconds series carrying the previous condition's
exact labels, in both metric families; a previously observed condition whose
status is unchanged is not deleted. -/
theorem stale_series_retired_iff_changed (kind group ns name : String) (st : ControllerState)
    (o : Object) (now : Int) (oc : Condition) (hoc : oc ∈ st.observedConditions.getD [])
    (hnd : ((st.observedConditions.getD []).map Condition.type).Nodup) :
    ((ConditionSet.Get o.conditions oc.type = none ∨
      (∃ cc, ConditionSet.Get o.conditions oc.type = some cc ∧ cc.status ≠ oc.status)) →
      (reconcileTrace kind group ns name st (.found o) now).countP
          (isGaugeDeleteAt .conditionCount false (condLabels group ns name oc)) = 1 ∧
      (reconcileTrace kind group ns name st (.found o) now).countP
          (isGaugeDeleteAt .conditionCount true
            (condLabels group ns name oc ++ [(MetricLabelKind, kind)])) = 1 ∧
      (reconcileTrace kind group ns name st (.found o) now).countP
          (isGaugeDeleteAt .conditionCurrentStatusSeconds false
            (condLabels group ns name oc)) = 1 ∧
      (reconcileTrace kind group ns name st (.found o) now).countP
          (isGaugeDeleteAt .conditionCurrentStatusSeconds true
            (condLabels group ns name oc ++ [(MetricLabelKind, kind)])) = 1) ∧
    ((∃ cc, ConditionSet.Get o.conditions oc.type = some cc ∧ cc.status = oc.status) →
      (reconcileTrace kind group ns name st (.found o) now).countP
          (isGaugeDeleteTouching oc.type) = 0) := by
  constructor
  · intro hretire
    have hblock : staleEffects kind group ns name o.conditions oc =
        deleteGaugeMetric kind .conditionCount (condLabels group ns name oc)
          ++ deleteGaugeMetric kind .conditionCurrentStatusSeconds
              (condLabels group ns name oc) := by
      rcases hretire with hnone | ⟨cc, hcc, hne⟩
      · exact staleBlock_retire_none kind group ns name o.conditions oc hnone
      · exact staleBlock_retire_some kind group ns name o.conditions oc cc hcc hne
    refine ⟨?_, ?_, ?_, ?_⟩ <;>
      · rw [reconcileTrace_found, countP_foundEffects_stale _ kind group ns name _ o now
          (by simp [isGaugeDeleteAt]) (by simp [isGaugeDeleteAt]) (by simp [isGaugeDeleteAt])
          (by simp [isGaugeDeleteAt]) (by simp [isGaugeDeleteAt]) (by simp [isGaugeDeleteAt])]
        rw [countP_flatMapEff_single _ _ _ hnd oc hoc (by
          intro b hb hbt
          first
            | exact staleBlock_zero_false kind group ns name o.conditions _ hbt
            | exact staleBlock_zero_true kind group ns name o.conditions _ hbt)]
        rw [hblock]
        simp [deleteGaugeMetric, isGaugeDeleteAt, List.countP_cons, List.countP_append]
  · intro hkeep
    rcases hkeep with ⟨cc, hcc, heq⟩
    rw [reconcileTrace_found, countP_foundEffects_stale _ kind group ns name _ o now
      (by simp [isGaugeDeleteTouching]) (by simp [isGaugeDeleteTouching])
      (by simp [isGaugeDeleteTouching]) (by simp [isGaugeDeleteTouching])
      (by simp [isGaugeDeleteTouching]) (by simp [isGaugeDeleteTouching])]
    rw [countP_flatMapEff_single _ _ _ hnd oc hoc (by
      intro b hb hbt
      exact staleBlock_zero_touch kind group ns name o.conditions hbt)]
    rw [staleBlock_keep kind group ns name o.conditions oc cc hcc heq]
    simp

/-- Witness for C6: a previously observed Foo/False condition whose
status is now True is retired in both families with its exact labels. -/
theorem stale_series_retired_iff_changed_witness :
    (reconcileTrace "k" "g" "a" "b" ⟨some [⟨"Foo", "False", "r0", "m", 3⟩], none⟩
        (.found ⟨[⟨"Foo", "True", "r", "", 5⟩], none⟩) 10).countP
      (isGaugeDeleteAt .conditionCount false
        (condLabels "g" "a" "b" ⟨"Foo", "False", "r0", "m", 3⟩)) = 1 :=
  ((stale_series_retired_iff_changed "k" "g" "a" "b"
      ⟨some [⟨"Foo", "False", "r0", "m", 3⟩], none⟩ ⟨[⟨"Foo", "True", "r", "", 5⟩], none⟩ 10
      ⟨"Foo", "False", "r0", "m", 3⟩ (by decide) (by decide)).1
    (Or.inr ⟨⟨"Foo", "True", "r", "", 5⟩, by decide, by decide⟩)).1

theorem mem_flatMapEff {e : Effect} {f : Condition → List Effect} :
    ∀ {l : List Condition}, e ∈ flatMapEff f l → ∃ c, c ∈ l ∧ e ∈ f c := by
  intro l
  induction l with
  | nil => intro h; cases h
  | cons b bs ih =>
      intro h
      rcases List.mem_append.mp (by simpa [flatMapEff] using h) with h1 | h2
      · exact ⟨b, List.mem_cons_self b bs, h1⟩
      · rcases ih h2 with ⟨c, hc, he⟩
        exact ⟨c, List.mem_cons_of_mem _ hc, he⟩

/-- C8: Every event emitted by reconcile is a Normal event whose reason is
the transitioning condition's type and whose message is exactly the fixed
template "Status condition transitioned, Type: {type}, Status: {prev} ->
{curr}, Reason: {reason}", with ", Message: {message}" appended iff the
condition's message is non-empty; events only arise on the successful branch
from a previously observed condition whose status changed. -/
theorem transition_events_shape (kind group ns name : String) (st : ControllerState)
    (fetch : FetchResult) (now : Int) :
    ∀ sev reason msg,
      Effect.eventEmit sev reason msg ∈ reconcileTrace kind group ns name st fetch now →
      sev = "Normal" ∧
      ∃ o c p, fetch = FetchResult.found o ∧ c ∈ o.conditions ∧
        ConditionSet.Get (st.observedConditions.getD []) c.type = some p ∧
        p.status ≠ c.status ∧ reason = c.type ∧
        msg = "Status condition transitioned, Type: " ++ c.type ++ ", Status: " ++ p.status
          ++ " -> " ++ c.status ++ ", Reason: " ++ c.reason
          ++ (if c.message = "" then "" else ", Message: " ++ c.message) := by
  intro sev reason msg hmem
  cases fetch with
  | fetchError => simp [reconcileTrace, reconcile] at hmem
  | notFound =>
      rcases h : st.terminatingObjects with _ | ts <;>
        simp [reconcileTrace, reconcile, notFoundEffects, h, deletePartialMatchGaugeMetric,
          observeHistogram] at hmem
  | found o =>
      rw [reconcileTrace_found] at hmem
      rcases List.mem_cons.mp hmem with h0 | hrest
      · simp at h0
      rcases List.mem_append.mp hrest with hABC | hD
      rotate_left
      · rcases mem_flatMapEff hD with ⟨c, hc, he⟩
        by_cases hst : GetStatus (ConditionSet.Get (st.observedConditions.getD []) c.type)
            = c.status
        · rw [transBlock_of_eq kind group _ c hst] at he
          cases he
        · rcases hoc : ConditionSet.Get (st.observedConditions.getD []) c.type with _ | p
          · rw [transBlock_of_ne_none kind group _ c hoc
              (by rw [hoc] at hst; simp [GetStatus] at hst; exact Ne.symm hst)] at he
            simp [incCounterMetric] at he
          · rw [transBlock_of_ne_some kind group _ c p hoc
              (by rw [hoc] at hst; simpa [GetStatus] using hst)] at he
            simp [incCounterMetric, observeHistogram] at he
            obtain ⟨hsev, hreason, hmsg⟩ := he
            refine ⟨hsev, o, c, p, rfl, hc, hoc, ?_, hreason, ?_⟩
            · rw [hoc] at hst
              simpa [GetStatus] using hst
            · rw [hmsg]
              by_cases hm : c.message = "" <;> simp [transitionEventMessage, hm]
      rcases List.mem_append.mp hABC with hAB | hC
      rotate_left
      · rcases mem_flatMapEff hC with ⟨c, hc, he⟩
        rcases hoc : ConditionSet.Get o.conditions c.type with _ | cc
        · rw [staleBlock_retire_none kind group ns name o.conditions c hoc] at he
          simp [deleteGaugeMetric] at he
        · by_cases hs : cc.status = c.status
          · rw [staleBlock_keep kind group ns name o.conditions c cc hoc hs] at he
            cases he
          · rw [staleBlock_retire_some kind group ns name o.conditions c cc hoc hs] at he
            simp [deleteGaugeMetric] at he
      rcases List.mem_append.mp hAB with hA | hB
      · rcases mem_flatMapEff hA with ⟨c, hc, he⟩
        simp [condGaugeEffects, setGaugeMetric] at he
      · rcases h : o.deletionTimestamp with _ | dt <;>
          simp [terminationEffects, h, setGaugeMetric] at hB

/-- Witness for C8: the event emitted for a False-to-True transition of
Foo with reason r and message m1 matches the template. -/
theorem transition_events_shape_witness :
    "Normal" = "Normal" ∧
    ∃ o c p, FetchResult.found (⟨[⟨"Foo", "True", "r", "m1", 5⟩], none⟩ : Object)
        = FetchResult.found o ∧
      c ∈ o.conditions ∧
      ConditionSet.Get ((⟨some [⟨"Foo", "False", "r0", "m0", 3⟩], none⟩
          : ControllerState).observedConditions.getD []) c.type = some p ∧
      p.status ≠ c.status ∧ "Foo" = c.type ∧
      "Status condition transitioned, Type: Foo, Status: False -> True, Reason: r, Message: m1"
        = "Status condition transitioned, Type: " ++ c.type ++ ", Status: " ++ p.status
          ++ " -> " ++ c.status ++ ", Reason: " ++ c.reason
          ++ (if c.message = "" then "" else ", Message: " ++ c.message) :=
  transition_events_shape "k" "g" "a" "b" ⟨some [⟨"Foo", "False", "r0", "m0", 3⟩], none⟩
    (.found ⟨[⟨"Foo", "True", "r", "m1", 5⟩], none⟩) 10 "Normal" "Foo"
    "Status condition transitioned, Type: Foo, Status: False -> True, Reason: r, Message: m1"
    (by decide)

/-! ## Pairing of the two metric families -/

theorem dualOk_storeObserved (kind : String) (cs : List Condition) (rest : List Effect) :
    dualOk kind (.storeObserved cs :: rest) = dualOk kind rest := by
  simp [dualOk]

theorem dualOk_storeTerminating (kind : String) (ts : Int) (rest : List Effect) :
    dualOk kind (.storeTerminating ts :: rest) = dualOk kind rest := by
  simp [dualOk]

theorem dualOk_event (kind a b m : String) (rest : List Effect) :
    dualOk kind (.eventEmit a b m :: rest) = dualOk kind rest := by
  simp [dualOk]

theorem dualOk_setGauge (kind : String) (m : MetricId) (v : Int) (l : Labels)
    (rest : List Effect) :
    dualOk kind (setGaugeMetric kind m v l ++ rest) = dualOk kind rest := by
  simp [setGaugeMetric, dualOk]

theorem dualOk_deleteGauge (kind : String) (m : MetricId) (l : Labels) (rest : List Effect) :
    dualOk kind (deleteGaugeMetric kind m l ++ rest) = dualOk kind rest := by
  simp [deleteGaugeMetric, dualOk]

theorem dualOk_partialDelete (kind : String) (m : MetricId) (l : Labels) (rest : List Effect) :
    dualOk kind (deletePartialMatchGaugeMetric kind m l ++ rest) = dualOk kind rest := by
  simp [deletePartialMatchGaugeMetric, dualOk]

theorem dualOk_counterInc (kind : String) (m : MetricId) (l : Labels) (rest : List Effect) :
    dualOk kind (incCounterMetric kind m l ++ rest) = dualOk kind rest := by
  simp [incCounterMetric, dualOk]

theorem dualOk_observeHistogram (kind : String) (m : MetricId) (v : Int) (l : Labels)
    (rest : List Effect) :
    dualOk kind (observeHistogram kind m v l ++ rest) = dualOk kind rest := by
  simp [observeHistogram, dualOk]

theorem dualOk_condGauge (kind group ns name : String) (now : Int) :
    ∀ (cs : List Condition) (rest : List Effect),
      dualOk kind (flatMapEff (condGaugeEffects kind group ns name now) cs ++ rest)
        = dualOk kind rest := by
  intro cs
  induction cs with
  | nil => intro rest; simp [flatMapEff]
  | cons c cs ih =>
      intro rest
      simp only [flatMapEff, condGaugeEffects, List.append_assoc]
      rw [dualOk_setGauge, dualOk_setGauge, ih]

theorem dualOk_termination (kind group ns name : String) (now : Int) (o : Object)
    (rest : List Effect) :
    dualOk kind (terminationEffects kind group ns name now o ++ rest) = dualOk kind rest := by
  rcases h : o.deletionTimestamp with _ | dt
  · simp [terminationEffects, h]
  · simp only [terminationEffects, h, List.append_assoc, List.singleton_append]
    rw [dualOk_setGauge, dualOk_storeTerminating]

theorem dualOk_stale (kind group ns name : String) (current : List Condition) :
    ∀ (obs : List Condition) (rest : List Effect),
      dualOk kind (flatMapEff (staleEffects kind group ns name current) obs ++ rest)
        = dualOk kind rest := by
  intro obs
  induction obs with
  | nil => intro rest; simp [flatMapEff]
  | cons b obs ih =>
      intro rest
      simp only [flatMapEff, List.append_assoc]
      rcases hoc : ConditionSet.Get current b.type with _ | cc
      · rw [staleBlock_retire_none kind group ns name current b hoc]
        simp only [List.append_assoc]
        rw [dualOk_deleteGauge, dualOk_deleteGauge, ih]
      · by_cases hs : cc.status = b.status
        · rw [staleBlock_keep kind group ns name current b cc hoc hs, List.nil_append]
          exact ih rest
        · rw [staleBlock_retire_some kind group ns name current b cc hoc hs]
          simp only [List.append_assoc]
          rw [dualOk_deleteGauge, dualOk_deleteGauge, ih]

theorem dualOk_transitions (kind group : String) (observed : List Condition) :
    ∀ (cs : List Condition) (rest : List Effect),
      dualOk kind (flatMapEff (transitionEffects kind group observed) cs ++ rest)
        = dualOk kind rest := by
  intro cs
  induction cs with
  | nil => intro rest; simp [flatMapEff]
  | cons c cs ih =>
      intro rest
      simp only [flatMapEff, List.append_assoc]
      by_cases hst : GetStatus (ConditionSet.Get observed c.type) = c.status
      · rw [transBlock_of_eq kind group observed c hst, List.nil_append]
        exact ih rest
      · rcases hoc : ConditionSet.Get observed c.type with _ | p
        · rw [transBlock_of_ne_none kind group observed c hoc
            (by rw [hoc] at hst; simp [GetStatus] at hst; exact Ne.symm hst)]
          rw [dualOk_counterInc, ih]
        · rw [transBlock_of_ne_some kind group observed c p hoc
            (by rw [hoc] at hst; simpa [GetStatus] using hst)]
          simp only [List.append_assoc, List.singleton_append]
          rw [dualOk_counterInc, dualOk_observeHistogram, dualOk_event, ih]

/-- C9: Every gauge set, gauge delete (exact and partial-match), counter
increment, and histogram observation of the reconcile routine is written as
an adjacent pair with the same value: the per-kind-named family with the
given labels, immediately followed by the kind-disambiguated family with the
identical labels plus the kind label; no unpaired family write ever occurs,
on any branch. -/
theorem dual_family_writes_paired (kind group ns name : String) (st : ControllerState)
    (fetch : FetchResult) (now : Int) :
    dualOk kind (reconcileTrace kind group ns name st fetch now) = true := by
  cases fetch with
  | fetchError => rfl
  | notFound =>
      rcases h : st.terminatingObjects with _ | ts <;>
        simp [reconcileTrace, reconcile, notFoundEffects, h, deletePartialMatchGaugeMetric,
          observeHistogram, dualOk]
  | found o =>
      rw [reconcileTrace_found]
      simp only [foundEffects, List.append_assoc]
      rw [dualOk_storeObserved, dualOk_condGauge, dualOk_termination, dualOk_stale]
      have := dualOk_transitions kind group (st.observedConditions.getD [])
        o.conditions []
      simpa using this
